import Mathlib

/-!
Verification of the router dispatch engine of the `iris` routing package
(`router.go`): method-match strategies, the `optimize` pass, plain and
domain-aware request dispatch, name-based reverse lookup, and the pooled
not-found responder.

The Go code is shallowly embedded: trees are records carrying an abstract
`serve : String → Bool` oracle (the trie itself is an excluded collaborator,
only its boolean outcome matters to the router), strategy function fields are
modelled as strategy kinds interpreted by `methodMatchOf`, and the mutable
loop of `serveDomainFunc` becomes a recursion threading the `path` string.
-/

namespace Iris

/-- `PrefixDynamicSubdomain` from the source: the sentinel prefix under which
dynamic subdomains are registered. -/
def PrefixDynamicSubdomain : String := "www.iris_subd0mAin.iris"

/-- `MethodGet` from the source. -/
def MethodGet : String := "GET"

/-- `MethodOptions` from the source. -/
def MethodOptions : String := "OPTIONS"

/-- `leadsWith pat s` holds when the char list `pat` is an initial run of `s`
(the check `strings.Index(s, pat) == 0` would do in Go). -/
def leadsWith : List Char → List Char → Bool
  | [], _ => true
  | _ :: _, [] => false
  | a :: as, b :: bs => a == b && leadsWith as bs

/-- `hasSub pat s`: the char list `pat` occurs contiguously inside `s`;
embeds Go's `strings.Index(s, pat) != -1`. -/
def hasSub (pat : List Char) : List Char → Bool
  | [] => leadsWith pat []
  | c :: rest => leadsWith pat (c :: rest) || hasSub pat rest

/-- `strContains s pat` embeds `strings.Index(s, pat) != -1`. -/
def strContains (s pat : String) : Bool :=
  hasSub pat.data s.data

/-- `countDots host` embeds `strings.Count(host, ".")`. -/
def countDots (s : String) : Nat :=
  s.data.countP (fun c => c == '.')

/-- `idxOf c l` embeds `strings.Index` for a single-character pattern:
the position of the first occurrence of `c` in `l`, if any. -/
def idxOf (c : Char) : List Char → Option Nat
  | [] => none
  | a :: as => if a == c then some 0 else (idxOf c as).map (· + 1)

/-- Specification-side form of port stripping: everything before the first
colon (`host[0:portIdx]`, or the whole host when no colon occurs). -/
def stripPort (host : String) : String :=
  String.mk (host.data.takeWhile (fun c => c != ':'))

/-- The subdomain derivation of `serveDomainFunc` (lines 278-285): the
`fulldomain` variable starts empty and is assigned the port-stripped host
exactly when the host has at least two dots and differs from the station
server's bound host. -/
def deriveFulldomain (host stationHost : String) : String :=
  if Nat.ble 2 (countDots host) && !(host == stationHost) then
    match idxOf ':' host.data with
    | some portIdx => String.mk (host.data.take portIdx)
    | none => host
  else ""

/-- A routing tree as the router sees it: one method, an optional domain,
the `hosts`/`cors` flags, and its `serve` outcome as an abstract oracle on
the lookup path. `tid` identifies the tree (its registration position). -/
structure TreeM where
  tid : Nat
  method : String
  domain : String
  hosts : Bool
  cors : Bool
  serve : String → Bool

/-- Result of one dispatch: either some tree's `serve` returned true
(the request was handled by that tree), or the router fell back to
`notFound`. -/
inductive Outcome where
  | served (tid : Nat)
  | notFound
deriving DecidableEq

/-- `methodMatchFunc` from the source: exact method equality. -/
def methodMatchFunc (m1 m2 : String) : Bool :=
  m1 == m2

/-- `methodMatchCorsFunc` from the source: the tree's method matches, or the
request method is OPTIONS. -/
def methodMatchCorsFunc (m1 reqMethod : String) : Bool :=
  m1 == reqMethod || reqMethod == MethodOptions

/-- `serveFunc` (lines 254-271): scan the tree list; at the first tree whose
method matches, delegate to its `serve` and answer not-found on failure
without scanning further; answer not-found when no method matches. -/
def serveFuncM (mm : String → String → Bool) : List TreeM → String → String → Outcome
  | [], _, _ => .notFound
  | t :: rest, method, path =>
    if mm t.method method then
      if t.serve path then .served t.tid else .notFound
    else serveFuncM mm rest method path

/-- The path rewriting step at the top of the `serveDomainFunc` loop body
(lines 290-296): a host-scoped tree with a nonempty domain, when a
fulldomain was derived, prefixes the current path with the literal
fulldomain (static subdomain) or with `PrefixDynamicSubdomain` (dynamic
virtual subdomain). -/
def domainRewrite (fulldomain : String) (t : TreeM) (path : String) : String :=
  if t.hosts && !(t.domain == "") && !(fulldomain == "") then
    if t.domain == fulldomain then fulldomain ++ path
    else if strContains t.domain PrefixDynamicSubdomain then PrefixDynamicSubdomain ++ path
    else path
  else path

/-- The loop of `serveDomainFunc` (lines 289-304): the `path` variable is
threaded through the iterations, each tree first rewrites it, then the
method is checked and `serve` attempted; a failed `serve` continues the
scan. -/
def serveDomainLoop (mm : String → String → Bool) (fulldomain method : String) :
    List TreeM → String → Outcome
  | [], _ => .notFound
  | t :: rest, path =>
    let p := domainRewrite fulldomain t path
    if mm t.method method then
      if t.serve p then .served t.tid else serveDomainLoop mm fulldomain method rest p
    else serveDomainLoop mm fulldomain method rest p

/-- `serveDomainFunc` (lines 275-308): derive the fulldomain from the host,
then run the scanning loop over the garden's tree list. -/
def serveDomainFuncM (mm : String → String → Bool) (stationHost : String)
    (trees : List TreeM) (method host path : String) : Outcome :=
  serveDomainLoop mm (deriveFulldomain host stationHost) method trees path

/-- The sequence of `serve` attempts the domain loop makes: for each tree the
threaded path is rewritten first; trees whose method matches contribute an
attempt at the rewritten path. -/
def serveDomainAttempts (mm : String → String → Bool) (fulldomain method : String) :
    List TreeM → String → List (TreeM × String)
  | [], _ => []
  | t :: rest, path =>
    let p := domainRewrite fulldomain t path
    if mm t.method method then
      (t, p) :: serveDomainAttempts mm fulldomain method rest p
    else serveDomainAttempts mm fulldomain method rest p

/-- Specification-side scan: the first attempt whose `serve` succeeds wins;
an exhausted attempt list is a not-found. -/
def firstServe : List (TreeM × String) → Outcome
  | [] => .notFound
  | (t, p) :: rest => if t.serve p then .served t.tid else firstServe rest

/-- A registered route in the router's `lookups` slice: the fields `UriOf`
and `RouteByName` read (`GetName`, `GetMethod`, the path pattern). -/
structure RouteM where
  name : String
  method : String
  path : String
deriving DecidableEq

/-- The sentinel `&Route{}` (line 127): every field empty. -/
def emptyRoute : RouteM :=
  { name := "", method := "", path := "" }

/-- `RouteByName` (lines 121-128): linear scan of `lookups` in registration
order, first route whose `GetName()` equals the query, else `&Route{}`. -/
def RouteByName (lookups : List RouteM) (routeName : String) : RouteM :=
  match lookups with
  | [] => emptyRoute
  | route :: rest =>
    if route.name == routeName then route else RouteByName rest routeName

/-- The typed error `ErrRenderRouteNotFound.Format(routeName)`. -/
inductive RouterError where
  | renderRouteNotFound (routeName : String)
deriving DecidableEq

/-- Split a char list at every occurrence of `c` (the segment views a path
pattern is made of). -/
def splitOnChar (c : Char) : List Char → List (List Char)
  | [] => [[]]
  | a :: as =>
    if a == c then [] :: splitOnChar c as
    else
      match splitOnChar c as with
      | [] => [[a]]
      | h :: t => (a :: h) :: t

/-- Re-join segments with separator `c`. -/
def joinChar (c : Char) : List (List Char) → List Char
  | [] => []
  | [x] => x
  | x :: xs => x ++ c :: joinChar c xs

/-- A path-pattern segment is a placeholder when it begins with `:` (named
parameter) or `*` (wildcard). -/
def isPlaceholderSeg : List Char → Bool
  | [] => false
  | a :: _ => a == ':' || a == '*'

/-- Modelled from the spec: the substitution core of `Route.ParseURI`, whose
body is not among the given sources. Spec §4.5: "substitutes the supplied
positional arguments into the pattern's named-parameter and wildcard
placeholders in declaration order". Non-placeholder segments are kept;
each placeholder consumes the next positional argument. -/
def substSegs : List (List Char) → List (List Char) → List (List Char)
  | [], _ => []
  | seg :: rest, args =>
    if isPlaceholderSeg seg then
      match args with
      | [] => seg :: substSegs rest []
      | a :: as => a :: substSegs rest as
    else seg :: substSegs rest args

/-- Modelled from the spec: `Route.ParseURI` (not among the given sources)
substitutes the positional arguments into the pattern's placeholders in
declaration order, "producing a concrete path string" (spec §4.5). -/
def ParseURI (pattern : String) (args : List String) : String :=
  String.mk (joinChar '/' (substSegs (splitOnChar '/' pattern.data) (args.map String.data)))

/-- `UriOf` (lines 137-145): resolve the route by name; an empty method
signals not-found and yields `ErrRenderRouteNotFound`; otherwise the parsed
URI and no error. -/
def UriOf (lookups : List RouteM) (routeName : String) (args : List String) :
    Except RouterError String :=
  let route := RouteByName lookups routeName
  if route.method == "" then
    Except.error (RouterError.renderRouteNotFound routeName)
  else
    Except.ok (ParseURI route.path args)

/-- The per-tree facts `router.cors`/`router.hosts` (lines 148-165) read via
`visitAll`; only these flags and the (method, domain) pair matter to
`optimize`, so garden trees are recorded without their serve oracle. -/
structure TreeRec where
  method : String
  domain : String
  hosts : Bool
  cors : Bool
deriving DecidableEq

/-- `router.cors()` (lines 148-155): some tree has `cors` set. -/
def corsAny (trees : List TreeRec) : Bool :=
  trees.any (fun t => t.cors)

/-- `router.hosts()` (lines 158-165): some tree has `hosts` set. -/
def hostsAny (trees : List TreeRec) : Bool :=
  trees.any (fun t => t.hosts)

/-- The two bindings the `methodMatch` function field can receive. -/
inductive MethodMatchKind where
  | normal
  | cors
deriving DecidableEq

/-- Interpretation of a `methodMatch` binding as the bound function. -/
def methodMatchOf : MethodMatchKind → String → String → Bool
  | .normal => methodMatchFunc
  | .cors => methodMatchCorsFunc

/-- The two bindings the `ServeRequest` function field can receive. -/
inductive ServeKind where
  | plain
  | domainAware
deriving DecidableEq

/-- The two bindings the `getRequestPath` function field can receive:
`reqCtx.Path()` (escaped) or `reqCtx.RequestURI()` (raw). -/
inductive PathKind where
  | escapedPath
  | rawURI
deriving DecidableEq

/-- The station configuration fields `optimize` reads. -/
structure ConfigM where
  DisablePathEscape : Bool
  Profile : Bool
  ProfilePath : String
deriving DecidableEq

/-- The router state `optimize` manipulates: the three strategy bindings,
the registered-route slice, the garden's tree list, and the `optimized`
latch. `newRouter` starts at `.normal`, `.plain`, `.escapedPath`,
`optimized = false`. -/
structure RouterM where
  methodMatchK : MethodMatchKind
  serveK : ServeKind
  pathK : PathKind
  lookups : List RouteM
  trees : List TreeRec
  optimized : Bool
deriving DecidableEq

/-- Modelled from the spec: `Garden.Plant`, whose body is not among the given
sources. Spec §4.2: "locate an existing Tree whose (method, domain) matches
the route; if none exists, append a new Tree to the list (tail-insert)". -/
def plantRec (trees : List TreeRec) (method domain : String) : List TreeRec :=
  if trees.any (fun t => t.method == method && t.domain == domain) then trees
  else trees ++ [{ method := method, domain := domain, hosts := !(domain == ""), cors := false }]

/-- The single profiling route `optimize` registers (line 209):
`r.Get(debugPath+"/*action", ...)`, an unnamed GET route. -/
def profileRoute (debugPath : String) : RouteM :=
  { name := "", method := MethodGet, path := debugPath ++ "/*action" }

/-- `optimize` (lines 168-236): return immediately when the latch is set;
otherwise rebind `methodMatch` when some tree has cors, `ServeRequest` when
some tree has hosts, `getRequestPath` when path escaping is disabled,
register the profiling route when profiling is configured, and set the
latch. -/
def optimize (cfg : ConfigM) (r : RouterM) : RouterM :=
  if r.optimized then r
  else
    let r1 := if corsAny r.trees then { r with methodMatchK := .cors } else r
    let r2 := if hostsAny r1.trees then { r1 with serveK := .domainAware } else r1
    let r3 := if cfg.DisablePathEscape then { r2 with pathK := .rawURI } else r2
    let r4 :=
      if cfg.Profile && !(cfg.ProfilePath == "") then
        { r3 with lookups := r3.lookups ++ [profileRoute cfg.ProfilePath],
                  trees := plantRec r3.trees MethodGet "" }
      else r3
    { r4 with optimized := true }

/-- A pooled error context; `cid` distinguishes pool members. -/
structure Context where
  cid : Nat
deriving DecidableEq

/-- `errorPool.Get()`: hand out a pooled context, or a fresh one when the
pool is empty (`sync.Pool` allocates through its `New` field). -/
def poolGet (pool : List Context) : Context × List Context :=
  match pool with
  | [] => ({ cid := 0 }, [])
  | c :: rest => (c, rest)

/-- `errorPool.Put(ctx)`: return a context to the pool. -/
def poolPut (pool : List Context) (c : Context) : List Context :=
  pool ++ [c]

/-- `notFound` (lines 240-245): get a context from the pool, run the error
handling (`ctx.Reset`; `ctx.NotFound()`, which invokes the registered error
handler and may panic), then put the context back. The `Put` is sequential,
not deferred, so a panic in the handler (modelled as `Except.error`)
propagates before `Put` runs: the value carried on either side is the pool
state after the call. -/
def notFoundM (handler : Context → Except Unit Unit) (pool : List Context) :
    Except (List Context) (List Context) :=
  match handler (poolGet pool).1 with
  | Except.error _ => Except.error (poolGet pool).2
  | Except.ok _ => Except.ok (poolPut (poolGet pool).2 (poolGet pool).1)

/-! ## Theorems -/

/-- C2: in non-domain dispatch (`serveFunc`), the tree list is scanned in
order and dispatch delegates to the first tree whose method matches via
`methodMatch`; if that tree's `serve` reports no match the request is
answered not-found immediately, without scanning further trees; if no
tree's method matches at all, the request is answered not-found. -/
theorem serveFunc_first_method_match :
    ∀ (mm : String → String → Bool) (trees : List TreeM) (method path : String),
      serveFuncM mm trees method path =
        match trees.find? (fun t => mm t.method method) with
        | some t => if t.serve path then Outcome.served t.tid else Outcome.notFound
        | none => Outcome.notFound := by
  intro mm trees method path
  induction trees with
  | nil => rfl
  | cons t rest ih =>
    by_cases h : mm t.method method = true
    · simp [serveFuncM, List.find?_cons, h]
    · simp only [Bool.not_eq_true] at h
      simp [serveFuncM, List.find?_cons, h, ih]

/-- C7: `RouteByName` is a linear, case-sensitive scan of the registered
route sequence in registration order, returning the first route whose name
equals the query, or the sentinel empty route (empty path, empty method)
when none has that name. -/
theorem routeByName_first_name_match :
    (∀ (lookups : List RouteM) (routeName : String),
      RouteByName lookups routeName =
        match lookups.find? (fun route => route.name == routeName) with
        | some route => route
        | none => emptyRoute)
    ∧ emptyRoute.path = "" ∧ emptyRoute.method = "" := by
  refine ⟨?_, rfl, rfl⟩
  intro lookups routeName
  induction lookups with
  | nil => rfl
  | cons route rest ih =>
    by_cases h : route.name == routeName
    · simp [RouteByName, List.find?_cons, h]
    · simp only [Bool.not_eq_true] at h
      simp [RouteByName, List.find?_cons, h, ih]

/-- C6: `UriOf` fails with the typed route-not-found error exactly when the
route resolved by name has an empty method (the sentinel for absence), and
otherwise returns the pattern with the positional arguments substituted
(`ParseURI`) and no error; being a total function of its arguments, it
neither panics nor terminates the program. -/
theorem uriOf_error_iff_empty_method :
    ∀ (lookups : List RouteM) (routeName : String) (args : List String),
      (UriOf lookups routeName args =
          Except.error (RouterError.renderRouteNotFound routeName) ↔
        (RouteByName lookups routeName).method = "")
      ∧ ((RouteByName lookups routeName).method ≠ "" →
        UriOf lookups routeName args =
          Except.ok (ParseURI (RouteByName lookups routeName).path args)) := by
  intro lookups routeName args
  by_cases h : (RouteByName lookups routeName).method = ""
  · simp [UriOf, h]
  · simp [UriOf, h]

/-- Witness for C6: the spec's own example route, resolved and parsed. -/
theorem uriOf_error_iff_empty_method_witness :
    UriOf
        [{ name := "profile", method := "GET",
           path := "/profile/:username/friends/:friendId" }]
        "profile" ["kataras", "8"] =
      Except.ok "/profile/kataras/friends/8" := by
  have h :=
    (uriOf_error_iff_empty_method
        [{ name := "profile", method := "GET",
           path := "/profile/:username/friends/:friendId" }]
        "profile" ["kataras", "8"]).2 (by decide)
  exact h.trans (congrArg Except.ok (by decide))

/-- C10: a registered route whose method is the empty string is found and
returned by `RouteByName`, yet `UriOf` on its name reports the
route-not-found error, because the empty-method sentinel for absence is
indistinguishable from a registered route with an empty method. -/
theorem uriOf_empty_method_registered :
    ∀ (route : RouteM) (rest : List RouteM) (args : List String),
      route.method = "" →
      RouteByName (route :: rest) route.name = route ∧
      UriOf (route :: rest) route.name args =
        Except.error (RouterError.renderRouteNotFound route.name) := by
  intro route rest args h
  have hfind : RouteByName (route :: rest) route.name = route := by
    simp [RouteByName]
  refine ⟨hfind, ?_⟩
  simp [UriOf, hfind, h]

/-- Witness for C10: a concrete registered route with empty method. -/
theorem uriOf_empty_method_registered_witness :
    RouteByName [{ name := "r", method := "", path := "/x" }] "r" =
      { name := "r", method := "", path := "/x" } ∧
    UriOf [{ name := "r", method := "", path := "/x" }] "r" [] =
      Except.error (RouterError.renderRouteNotFound "r") :=
  uriOf_empty_method_registered
    { name := "r", method := "", path := "/x" } [] [] rfl

/-- The domain loop is the first-successful-serve scan over its attempt
trace: the path is threaded through `serveDomainAttempts` exactly as the
loop threads it. -/
theorem serveDomainLoop_eq_firstServe (mm : String → String → Bool)
    (fulldomain method : String) (trees : List TreeM) :
    ∀ path, serveDomainLoop mm fulldomain method trees path =
      firstServe (serveDomainAttempts mm fulldomain method trees path) := by
  induction trees with
  | nil => intro path; rfl
  | cons t rest ih =>
    intro path
    by_cases h : mm t.method method = true
    · by_cases hs : t.serve (domainRewrite fulldomain t path) = true
      · simp [serveDomainLoop, serveDomainAttempts, firstServe, h, hs]
      · simp only [Bool.not_eq_true] at hs
        simp [serveDomainLoop, serveDomainAttempts, firstServe, h, hs, ih]
    · simp only [Bool.not_eq_true] at h
      simp [serveDomainLoop, serveDomainAttempts, h, ih]

/-- C1: domain-aware dispatch scans the tree list in registration order;
each host-scoped tree, when a subdomain was derived, first rewrites the
lookup path by prefixing it with the literal subdomain (static match) or
the dynamic-subdomain sentinel (dynamic match); the scan continues past
trees whose `serve` fails, the first full match wins, and exhausting the
list answers not-found (`firstServe` over the attempt trace). -/
theorem serveDomainFunc_scan_spec :
    (∀ (mm : String → String → Bool) (stationHost : String) (trees : List TreeM)
        (method host path : String),
      serveDomainFuncM mm stationHost trees method host path =
        firstServe (serveDomainAttempts mm (deriveFulldomain host stationHost)
          method trees path))
    ∧ (∀ (fulldomain : String) (t : TreeM) (path : String),
      t.hosts = true → t.domain ≠ "" → fulldomain ≠ "" → t.domain = fulldomain →
      domainRewrite fulldomain t path = fulldomain ++ path)
    ∧ (∀ (fulldomain : String) (t : TreeM) (path : String),
      t.hosts = true → t.domain ≠ "" → fulldomain ≠ "" → t.domain ≠ fulldomain →
      strContains t.domain PrefixDynamicSubdomain = true →
      domainRewrite fulldomain t path = PrefixDynamicSubdomain ++ path) := by
  refine ⟨?_, ?_, ?_⟩
  · intro mm stationHost trees method host path
    exact serveDomainLoop_eq_firstServe mm (deriveFulldomain host stationHost)
      method trees path
  · intro fulldomain t path hh hd hf he
    simp [domainRewrite, hh, hd, hf, he]
  · intro fulldomain t path hh hd hf hne hc
    simp [domainRewrite, hh, hd, hf, hne, hc]

/-- Witness for C1: a two-tree garden (one static subdomain tree, one
dynamic), the static one winning, plus both rewrite shapes. -/
theorem serveDomainFunc_scan_spec_witness :
    serveDomainFuncM methodMatchFunc "mysite.com"
        [{ tid := 0, method := "GET", domain := "blog.a.b", hosts := true,
           cors := false, serve := fun p => p == "blog.a.b/x" }]
        "GET" "blog.a.b" "/x" =
      firstServe (serveDomainAttempts methodMatchFunc
        (deriveFulldomain "blog.a.b" "mysite.com") "GET"
        [{ tid := 0, method := "GET", domain := "blog.a.b", hosts := true,
           cors := false, serve := fun p => p == "blog.a.b/x" }] "/x") ∧
    domainRewrite "blog.a.b"
        { tid := 0, method := "GET", domain := "blog.a.b", hosts := true,
          cors := false, serve := fun _ => true } "/x" = "blog.a.b" ++ "/x" ∧
    domainRewrite "blog.a.b"
        { tid := 1, method := "GET", domain := PrefixDynamicSubdomain,
          hosts := true, cors := false, serve := fun _ => true } "/x" =
      PrefixDynamicSubdomain ++ "/x" :=
  ⟨serveDomainFunc_scan_spec.1 methodMatchFunc "mysite.com" _ "GET" "blog.a.b" "/x",
   serveDomainFunc_scan_spec.2.1 "blog.a.b" _ "/x" rfl (by decide) (by decide) rfl,
   serveDomainFunc_scan_spec.2.2 "blog.a.b" _ "/x" rfl (by decide) (by decide)
     (by decide) (by decide)⟩

/-- C9: the `path` variable of `serveDomainFunc` is shared across loop
iterations and mutated before the method check: a host-scoped first tree
whose method does not even match still prefixes the path, so the next tree
is served with the already-prefixed path, and a further host-scoped tree of
the same domain prefixes it a second time. -/
theorem serveDomain_path_mutation :
    ∀ (mm : String → String → Bool) (fulldomain method p : String) (t1 t2 : TreeM),
      t1.hosts = true → t1.domain = fulldomain → fulldomain ≠ "" →
      mm t1.method method = false →
      (serveDomainLoop mm fulldomain method [t1, t2] p =
        if mm t2.method method then
          if t2.serve (domainRewrite fulldomain t2 (fulldomain ++ p)) then
            Outcome.served t2.tid
          else Outcome.notFound
        else Outcome.notFound)
      ∧ (t2.hosts = true → t2.domain = fulldomain →
        domainRewrite fulldomain t2 (fulldomain ++ p) =
          fulldomain ++ (fulldomain ++ p)) := by
  intro mm fulldomain method p t1 t2 hh hd hf hm
  have hrw : domainRewrite fulldomain t1 p = fulldomain ++ p := by
    have hdne : t1.domain ≠ "" := by rw [hd]; exact hf
    simp [domainRewrite, hh, hdne, hf, hd]
  constructor
  · simp only [serveDomainLoop, hrw, hm, Bool.false_eq_true, if_false]
  · intro h2h h2d
    have h2ne : t2.domain ≠ "" := by rw [h2d]; exact hf
    simp [domainRewrite, h2h, h2ne, hf, h2d]

/-- Witness for C9: the first tree is host-scoped with a non-matching
method (POST); the second tree is host-scoped on the same domain and only
matches the doubly-prefixed path. -/
theorem serveDomain_path_mutation_witness :
    (serveDomainLoop methodMatchFunc "blog.a.b" "GET"
        [{ tid := 0, method := "POST", domain := "blog.a.b", hosts := true,
           cors := false, serve := fun _ => true },
         { tid := 1, method := "GET", domain := "blog.a.b", hosts := true,
           cors := false, serve := fun p => p == "blog.a.bblog.a.b/x" }] "/x" =
      if methodMatchFunc "GET" "GET" then
        if ({ tid := 1, method := "GET", domain := "blog.a.b", hosts := true,
              cors := false,
              serve := fun p => p == "blog.a.bblog.a.b/x" } : TreeM).serve
            (domainRewrite "blog.a.b"
              { tid := 1, method := "GET", domain := "blog.a.b", hosts := true,
                cors := false, serve := fun p => p == "blog.a.bblog.a.b/x" }
              ("blog.a.b" ++ "/x")) then
          Outcome.served 1
        else Outcome.notFound
      else Outcome.notFound)
    ∧ domainRewrite "blog.a.b"
        { tid := 1, method := "GET", domain := "blog.a.b", hosts := true,
          cors := false, serve := fun p => p == "blog.a.bblog.a.b/x" }
        ("blog.a.b" ++ "/x") = "blog.a.b" ++ ("blog.a.b" ++ "/x") := by
  have h := serveDomain_path_mutation methodMatchFunc "blog.a.b" "GET" "/x"
    { tid := 0, method := "POST", domain := "blog.a.b", hosts := true,
      cors := false, serve := fun _ => true }
    { tid := 1, method := "GET", domain := "blog.a.b", hosts := true,
      cors := false, serve := fun p => p == "blog.a.bblog.a.b/x" }
    rfl rfl (by decide) (by decide)
  exact ⟨h.1, h.2 rfl rfl⟩

/-- Taking up to the first occurrence of `:` (or the whole list when there
is none) is taking while characters differ from `:`. -/
theorem idxOf_take_eq_takeWhile (l : List Char) :
    (match idxOf ':' l with
     | some i => l.take i
     | none => l) = l.takeWhile (fun c => c != ':') := by
  induction l with
  | nil => rfl
  | cons a as ih =>
    by_cases h : a == ':'
    · simp [idxOf, List.takeWhile, h, bne]
    · simp only [Bool.not_eq_true] at h
      simp only [idxOf, h, Bool.false_eq_true, if_false, List.takeWhile, bne,
        Bool.not_false]
      cases hi : idxOf ':' as with
      | none => simpa [hi] using ih
      | some i => simpa [hi] using ih

/-- C4: in domain-aware dispatch, a subdomain is considered present (the
derived fulldomain is taken from the host) if and only if the host contains
at least two dots and differs from the server's own bound host; when
present, the derived fulldomain is the host with any port suffix (from the
first `:`) stripped. -/
theorem deriveFulldomain_spec :
    ∀ (host stationHost : String),
      deriveFulldomain host stationHost =
        if 2 ≤ countDots host ∧ host ≠ stationHost then stripPort host
        else "" := by
  intro host stationHost
  unfold deriveFulldomain stripPort
  rw [← idxOf_take_eq_takeWhile host.data]
  by_cases h1 : 2 ≤ countDots host <;> by_cases h2 : host = stationHost <;>
    cases hi : idxOf ':' host.data <;>
      simp [h1, h2, hi, Nat.ble_eq]

/-- The `optimized` latch is set after any call to `optimize`. -/
theorem optimize_optimized (cfg : ConfigM) (r : RouterM) :
    (optimize cfg r).optimized = true := by
  by_cases h : r.optimized = true
  · simp [optimize, h]
  · simp only [Bool.not_eq_true] at h
    simp [optimize, h]

/-- A router whose latch is set is returned unchanged by `optimize`. -/
theorem optimize_of_optimized (cfg : ConfigM) (r : RouterM)
    (h : r.optimized = true) : optimize cfg r = r := by
  unfold optimize
  rw [if_pos h]

/-- C5: `optimize` is idempotent: the first call sets the `optimized` latch
and every subsequent call is a no-op, so the router state after calling it
twice is identical to the state after calling it once. -/
theorem optimize_idem :
    ∀ (cfg : ConfigM) (r : RouterM),
      (optimize cfg r).optimized = true ∧
      optimize cfg (optimize cfg r) = optimize cfg r := by
  intro cfg r
  exact ⟨optimize_optimized cfg r,
    optimize_of_optimized cfg (optimize cfg r) (optimize_optimized cfg r)⟩

/-- The `methodMatch` binding after `optimize` on an unoptimized router:
rebound to the CORS variant exactly when some tree has `cors`. -/
theorem optimize_methodMatchK (cfg : ConfigM) (r : RouterM)
    (h : r.optimized = false) :
    (optimize cfg r).methodMatchK =
      if corsAny r.trees then MethodMatchKind.cors else r.methodMatchK := by
  simp only [optimize, h, Bool.false_eq_true, if_false]
  by_cases hc : corsAny r.trees = true <;>
    by_cases hh : hostsAny r.trees = true <;>
      by_cases hp : cfg.DisablePathEscape = true <;>
        by_cases hpr : (cfg.Profile && !(cfg.ProfilePath == "")) = true <;>
          simp [hc, hh, hp, hpr]

/-- C3: after `optimize` on a fresh (unoptimized, exact-match) router, if
any tree has `cors` then the bound `methodMatch` accepts exactly the pairs
where the tree method equals the request method or the request method is
OPTIONS; if no tree has `cors`, the bound `methodMatch` is exact string
equality. -/
theorem methodMatch_after_optimize :
    ∀ (cfg : ConfigM) (r : RouterM) (m1 m2 : String),
      r.optimized = false → r.methodMatchK = MethodMatchKind.normal →
      (corsAny r.trees = true →
        (methodMatchOf (optimize cfg r).methodMatchK m1 m2 = true ↔
          (m1 = m2 ∨ m2 = MethodOptions)))
      ∧ (corsAny r.trees = false →
        methodMatchOf (optimize cfg r).methodMatchK m1 m2 = (m1 == m2)) := by
  intro cfg r m1 m2 ho hn
  have hk := optimize_methodMatchK cfg r ho
  constructor
  · intro hc
    rw [hk, if_pos hc]
    simp [methodMatchOf, methodMatchCorsFunc]
  · intro hc
    rw [hk, if_neg (by simp [hc]), hn]
    rfl

/-- Witness for C3: a CORS garden lets OPTIONS match a GET tree; a plain
garden keeps exact equality. -/
theorem methodMatch_after_optimize_witness :
    methodMatchOf
        (optimize { DisablePathEscape := false, Profile := false, ProfilePath := "" }
          { methodMatchK := MethodMatchKind.normal, serveK := ServeKind.plain,
            pathK := PathKind.escapedPath, lookups := [],
            trees := [{ method := "GET", domain := "", hosts := false, cors := true }],
            optimized := false }).methodMatchK "GET" "OPTIONS" = true ∧
    methodMatchOf
        (optimize { DisablePathEscape := false, Profile := false, ProfilePath := "" }
          { methodMatchK := MethodMatchKind.normal, serveK := ServeKind.plain,
            pathK := PathKind.escapedPath, lookups := [],
            trees := [{ method := "GET", domain := "", hosts := false, cors := false }],
            optimized := false }).methodMatchK "GET" "POST" = ("GET" == "POST") :=
  ⟨((methodMatch_after_optimize
        { DisablePathEscape := false, Profile := false, ProfilePath := "" }
        { methodMatchK := MethodMatchKind.normal, serveK := ServeKind.plain,
          pathK := PathKind.escapedPath, lookups := [],
          trees := [{ method := "GET", domain := "", hosts := false, cors := true }],
          optimized := false } "GET" "OPTIONS" rfl rfl).1 rfl).mpr (Or.inr rfl),
   (methodMatch_after_optimize
        { DisablePathEscape := false, Profile := false, ProfilePath := "" }
        { methodMatchK := MethodMatchKind.normal, serveK := ServeKind.plain,
          pathK := PathKind.escapedPath, lookups := [],
          trees := [{ method := "GET", domain := "", hosts := false, cors := false }],
          optimized := false } "GET" "POST" rfl rfl).2 rfl⟩

/-- Counterexample to C8 as stated: with one pooled context and an error
handling that panics, `notFound` exits by the panic path and the pool ends
empty — the context was not returned. -/
theorem notFound_pool_counterexample :
    notFoundM (fun _ => Except.error ()) [{ cid := 1 }] = Except.error [] ∧
    ([] : List Context) ≠ [{ cid := 1 }] :=
  ⟨rfl, by decide⟩

/-- C8 amended: the pooled context is returned to the pool on the normal
exit path of `notFound`; when the invoked error handling panics, the
sequential (non-deferred) `Put` is skipped and the context is not returned,
so a panic removes a context from the pool. -/
theorem notFound_pool_put_paths :
    (∀ (handler : Context → Except Unit Unit) (pool : List Context),
      (∀ ctx, handler ctx = Except.ok ()) →
      notFoundM handler pool =
        Except.ok (poolPut (poolGet pool).2 (poolGet pool).1))
    ∧ (∀ (handler : Context → Except Unit Unit) (c : Context)
        (rest : List Context) (e : Unit),
      handler c = Except.error e →
      notFoundM handler (c :: rest) = Except.error rest) := by
  constructor
  · intro handler pool h
    unfold notFoundM
    rw [h (poolGet pool).1]
  · intro handler c rest e h
    unfold notFoundM
    simp only [poolGet, h]

/-- Witness for C8 amended: a succeeding handler returns the context; a
panicking handler loses it. -/
theorem notFound_pool_put_paths_witness :
    notFoundM (fun _ => Except.ok ()) [{ cid := 1 }] =
      Except.ok [{ cid := 1 }] ∧
    notFoundM (fun _ => Except.error ()) [{ cid := 2 }, { cid := 3 }] =
      Except.error [{ cid := 3 }] :=
  ⟨notFound_pool_put_paths.1 (fun _ => Except.ok ()) [{ cid := 1 }]
      (fun _ => rfl),
   notFound_pool_put_paths.2 (fun _ => Except.error ()) { cid := 2 }
      [{ cid := 3 }] () rfl⟩

end Iris
